import Mathlib

/-!
Shallow embedding of the TCP connection-acceptor program in
`tcp-server/server.go`.

The program has two functions:

* `do(conn net.Conn)` — the per-connection handler: it allocates a 1024-byte
  buffer, performs a single `conn.Read(buffer)` (calling `log.Fatal` on error,
  which exits the whole process without running deferred calls), sleeps 8
  seconds, calls `conn.Write` with a fixed byte string discarding both return
  values, and registers `defer conn.Close()` which runs when the function
  returns.

* `main()` — binds a TCP listener on port 4221 (`log.Fatal` on bind error),
  then loops forever: `Accept` (`log.Fatal` on error) and `go do(conn)`.

The handler is embedded as a list of statements interpreted into an event
trace, with an explicit defer stack mirroring Go's semantics (deferred calls
are registered when the `defer` statement executes and run at function
return; `log.Fatal` calls `os.Exit`, which skips deferred calls).  The
acceptor loop together with the spawned handler goroutines is embedded as a
small-step system over a scheduler choice list.
-/

namespace TcpServer

/-- Observable events of one handler invocation.  `readCall` records the size
of the buffer passed to `conn.Read` and the request bytes the single call had
access to (at most the buffer size); `write` records the bytes passed to
`conn.Write`; `fatalExit` records a `log.Fatal` call, which terminates the
entire process. -/
inductive Event where
  | readCall (bufSize : Nat) (consumed : List Nat)
  | sleep (seconds : Nat)
  | write (data : String)
  | close
  | fatalExit (msg : String)
  deriving DecidableEq, Repr

/-- The environment of one accepted connection: the request bytes the wire
would deliver to a read, whether the read fails, and whether the write fails.
The source never inspects the buffer contents and discards both results of
`conn.Write`; the fields are here so that theorems can quantify over them. -/
structure Conn where
  requestData : List Nat
  readErr : Option String
  writeErr : Option String
  deriving DecidableEq, Repr

/-- Size of the read buffer: `buffer := make([]byte, 1024)` in `do`. -/
def bufferSize : Nat := 1024

/-- The argument of `conn.Write` in `do`:
`[]byte("HTTP/1.1 200 OK\r\n\r\nHey Client!\r\n")`. -/
def response : String := "HTTP/1.1 200 OK\r\n\r\nHey Client!\r\n"

/-- The statements of the body of `do`, in source order. -/
inductive GoStmt where
  | readFromConn
  | sleepStmt (seconds : Nat)
  | writeToConn (data : String)
  | deferClose
  deriving DecidableEq, Repr

/-- The body of `do`: read, 8-second sleep, write, `defer conn.Close()`. -/
def doBody : List GoStmt :=
  [GoStmt.readFromConn, GoStmt.sleepStmt 8, GoStmt.writeToConn response,
   GoStmt.deferClose]

/-- Interpreter state for one handler invocation: events performed so far,
the defer stack (head = most recently registered), and whether `log.Fatal`
has run (with its message). -/
structure HState where
  trace : List Event
  deferred : List Event
  fatal : Option String
  deriving DecidableEq, Repr

/-- One statement of `do`.  `readFromConn` performs the read and, on error,
`log.Fatal("error reading from connection: ", err)`; `writeToConn` performs
the write and discards both return values (the connection's `writeErr` is
never consulted); `deferClose` pushes the close onto the defer stack without
performing it. -/
def execStmt (c : Conn) (s : HState) : GoStmt → HState
  | GoStmt.readFromConn =>
    match c.readErr with
    | some e =>
      { s with
        trace := s.trace ++
          [Event.readCall bufferSize (c.requestData.take bufferSize),
           Event.fatalExit ("error reading from connection: " ++ e)],
        fatal := some ("error reading from connection: " ++ e) }
    | none =>
      { s with
        trace := s.trace ++
          [Event.readCall bufferSize (c.requestData.take bufferSize)] }
  | GoStmt.sleepStmt n => { s with trace := s.trace ++ [Event.sleep n] }
  | GoStmt.writeToConn data => { s with trace := s.trace ++ [Event.write data] }
  | GoStmt.deferClose => { s with deferred := Event.close :: s.deferred }

/-- Run a statement list; once `log.Fatal` has run, no further statement
executes. -/
def execStmts (c : Conn) : List GoStmt → HState → HState
  | [], s => s
  | st :: rest, s =>
    if s.fatal.isSome then s else execStmts c rest (execStmt c s st)

/-- The state of `do conn` after its body, before the return point. -/
def execBody (c : Conn) : HState :=
  execStmts c doBody { trace := [], deferred := [], fatal := none }

/-- The complete event trace of one invocation of `do conn`.  On normal
return the deferred calls run last-in-first-out; `log.Fatal` exits the
process without running them. -/
def runHandler (c : Conn) : List Event :=
  if (execBody c).fatal.isSome then (execBody c).trace
  else (execBody c).trace ++ (execBody c).deferred

/-- The payloads of the `write` events of a trace, in order. -/
def writesOf (tr : List Event) : List String :=
  tr.filterMap fun e =>
    match e with
    | Event.write d => some d
    | _ => none

/-- The `(bufSize, consumed)` pairs of the `readCall` events of a trace. -/
def readCallsOf (tr : List Event) : List (Nat × List Nat) :=
  tr.filterMap fun e =>
    match e with
    | Event.readCall b d => some (b, d)
    | _ => none

/-- Whether a trace contains a `fatalExit` event. -/
def hasFatal (tr : List Event) : Bool :=
  tr.any fun e =>
    match e with
    | Event.fatalExit _ => true
    | _ => false

/-! ## The acceptor loop (`main`) with spawned handler tasks -/

/-- What `l.Accept()` yields for one loop iteration: a connection, or an
error (on which `main` calls `log.Fatal`). -/
inductive AcceptOutcome where
  | conn (c : Conn)
  | failure (e : String)
  deriving DecidableEq, Repr

/-- System state: the outcomes the listener will yield to future `Accept`
calls in order, the spawned handler goroutines (each paired with the events
it has yet to perform), and whether the process has exited. -/
structure SysState where
  pending : List AcceptOutcome
  tasks : List (Conn × List Event)
  dead : Bool
  deriving DecidableEq, Repr

/-- A scheduler decision: run the acceptor loop for one iteration, or let the
`i`-th spawned handler perform its next event. -/
inductive Choice where
  | acceptor
  | handler (i : Nat)
  deriving DecidableEq, Repr

/-- One scheduling step.  A dead process does nothing.  The acceptor blocks
when no connection is pending; on a connection it spawns `go do(conn)` and
immediately returns to `Accept`; on an accept error it calls `log.Fatal`.
A handler performing a `fatalExit` event kills the whole process. -/
def stepSys (ch : Choice) (s : SysState) : SysState :=
  if s.dead then s
  else
    match ch with
    | Choice.acceptor =>
      match s.pending with
      | [] => s
      | AcceptOutcome.conn c :: rest =>
        { pending := rest, tasks := s.tasks ++ [(c, runHandler c)],
          dead := false }
      | AcceptOutcome.failure _ :: _ => { s with dead := true }
    | Choice.handler i =>
      match s.tasks[i]? with
      | some (c, Event.fatalExit _ :: es) =>
        { s with tasks := s.tasks.set i (c, es), dead := true }
      | some (c, _ :: es) => { s with tasks := s.tasks.set i (c, es) }
      | _ => s

/-- Run a whole schedule. -/
def runSys : List Choice → SysState → SysState
  | [], s => s
  | ch :: rest, s => runSys rest (stepSys ch s)

/-- Process start: `net.Listen("tcp", ":4221")` either fails, on which
`log.Fatal` exits before any connection is served, or succeeds and the
accept loop starts with no handler spawned yet. -/
def mainStart (bindErr : Option String) (outcomes : List AcceptOutcome) :
    SysState :=
  match bindErr with
  | some _ => { pending := [], tasks := [], dead := true }
  | none => { pending := outcomes, tasks := [], dead := false }

/-! ## Basic lemmas -/

/-- A dead process is stuck: no step changes it. -/
lemma stepSys_dead (ch : Choice) (s : SysState) (h : s.dead = true) :
    stepSys ch s = s := by
  unfold stepSys
  simp [h]

/-- A dead process stays stuck under any schedule. -/
lemma runSys_dead (sched : List Choice) (s : SysState) (h : s.dead = true) :
    runSys sched s = s := by
  induction sched with
  | nil => rfl
  | cons ch rest ih => simp [runSys, stepSys_dead ch s h, ih]

/-- The handler trace on a successful read, written out. -/
lemma runHandler_ok (d : List Nat) (w : Option String) :
    runHandler (Conn.mk d none w) =
      [Event.readCall bufferSize (d.take bufferSize), Event.sleep 8,
       Event.write response, Event.close] := by
  rfl

/-- The handler trace on a failed read, written out. -/
lemma runHandler_readErr (d : List Nat) (e : String) (w : Option String) :
    runHandler (Conn.mk d (some e) w) =
      [Event.readCall bufferSize (d.take bufferSize),
       Event.fatalExit ("error reading from connection: " ++ e)] := by
  rfl

/-! ## Claim theorems: the per-connection handler -/

/-- C2: for every accepted connection on which the handler's read succeeds
(any request bytes, any write outcome), the handler writes exactly one fixed
byte sequence, that sequence is an HTTP/1.1 200 status line followed by the
literal body bytes "Hey Client!", and the trace then ends with the server
closing the connection right after the write. -/
theorem claim_C2_fixed_response_then_close (d : List Nat) (w : Option String) :
    writesOf (runHandler (Conn.mk d none w)) = [response] ∧
    (∃ tail, response =
      "HTTP/1.1 200 OK" ++ "\r\n" ++ ("\r\n" ++ ("Hey Client!" ++ tail))) ∧
    (∃ pre, runHandler (Conn.mk d none w) =
      pre ++ [Event.write response, Event.close]) := by
  refine ⟨rfl, ⟨"\r\n", rfl⟩,
    ⟨[Event.readCall bufferSize (d.take bufferSize), Event.sleep 8], rfl⟩⟩

/-- C3: for any two inputs delivered to a connection's handler, if the read
succeeds in both runs then the bytes written are identical — the output does
not depend on the request content (nor on the write outcome). -/
theorem claim_C3_response_independent_of_request (d d' : List Nat)
    (w w' : Option String) :
    writesOf (runHandler (Conn.mk d none w)) =
      writesOf (runHandler (Conn.mk d' none w')) := by
  rfl

/-- C4: on every path (read success or failure, any write outcome) the
handler performs exactly one read, into a 1024-byte buffer, consuming at most
the first 1024 request bytes; moreover its whole behavior depends only on
those first 1024 bytes, so anything beyond what the single read delivers is
never read (silent truncation). -/
theorem claim_C4_single_bounded_read (d : List Nat) (r w : Option String) :
    readCallsOf (runHandler (Conn.mk d r w)) = [(bufferSize, d.take bufferSize)] ∧
    bufferSize = 1024 ∧
    runHandler (Conn.mk d r w) =
      runHandler (Conn.mk (d.take bufferSize) r w) := by
  cases r with
  | none => exact ⟨rfl, rfl, by simp [runHandler_ok, List.take_take]⟩
  | some e => exact ⟨rfl, rfl, by simp [runHandler_readErr, List.take_take]⟩

/-- C5: on the success path the handler performs, in this order and with
nothing skipped or reordered: one read from the connection, then the fixed
8-second delay, then one write of the fixed response, then the close of the
connection. -/
theorem claim_C5_handler_step_order (d : List Nat) (w : Option String) :
    runHandler (Conn.mk d none w) =
      [Event.readCall bufferSize (d.take bufferSize), Event.sleep 8,
       Event.write response, Event.close] :=
  runHandler_ok d w

/-- C8: whenever the read succeeds, the close of the connection is on the
defer stack at the end of the body regardless of the write outcome, the
handler reaches its return point without a fatal exit, the deferred close
runs exactly at that return point — after the write, which is the last event
of the body — and so the completed invocation ends with the connection
closed. -/
theorem claim_C8_close_deferred_unconditionally (d : List Nat)
    (w : Option String) :
    (execBody (Conn.mk d none w)).deferred = [Event.close] ∧
    (execBody (Conn.mk d none w)).fatal =
      none ∧
    runHandler (Conn.mk d none w) =
      (execBody (Conn.mk d none w)).trace ++ [Event.close] ∧
    (execBody (Conn.mk d none w)).trace.getLast? = some (Event.write response) ∧
    (runHandler (Conn.mk d none w)).getLast? = some Event.close := by
  exact ⟨rfl, rfl, rfl, rfl, rfl⟩

/-- C9: when the read fails, the process-terminating exit happens before the
defer statement is reached: at the fatal exit the defer stack is still empty,
so the handler never executes a close on that connection — its trace contains
no close event and ends with the fatal exit. -/
theorem claim_C9_no_close_on_read_error (d : List Nat) (e : String)
    (w : Option String) :
    (execBody (Conn.mk d (some e) w)).deferred = [] ∧
    (execBody (Conn.mk d (some e) w)).fatal =
      some ("error reading from connection: " ++ e) ∧
    Event.close ∉ runHandler (Conn.mk d (some e) w) ∧
    (runHandler (Conn.mk d (some e) w)).getLast? =
      some (Event.fatalExit ("error reading from connection: " ++ e)) := by
  refine ⟨rfl, rfl, ?_, rfl⟩
  simp [runHandler_readErr]

/-- C10: the handler discards both results of the write: its trace is
identical whatever the write outcome is, a write failure never causes a fatal
exit, the handler still returns normally, and the deferred close still runs
as the final event. -/
theorem claim_C10_write_result_discarded (d : List Nat)
    (w w' : Option String) :
    runHandler (Conn.mk d none w) =
      runHandler (Conn.mk d none w') ∧
    hasFatal (runHandler (Conn.mk d none w)) = false ∧
    (execBody (Conn.mk d none w)).fatal =
      none ∧
    (runHandler (Conn.mk d none w)).getLast? = some Event.close := by
  exact ⟨rfl, rfl, rfl, rfl⟩

/-! ## Claim theorems: the acceptor loop -/

/-- Replacing the remaining events of one task, keeping its connection, does
not change which connection each task owns. -/
lemma map_fst_set (ts : List (Conn × List Event)) (i : Nat) (c : Conn)
    (es es' : List Event) (h : ts[i]? = some (c, es')) :
    List.map Prod.fst (ts.set i (c, es)) = List.map Prod.fst ts := by
  induction ts generalizing i with
  | nil => simp at h
  | cons hd tl ih =>
    cases i with
    | zero =>
      simp only [List.getElem?_cons_zero, Option.some.injEq] at h
      subst h
      simp [List.set]
    | succ n =>
      simp only [List.getElem?_cons_succ] at h
      simp [List.set, ih n h]

/-- Effect of one handler step when task `i` has a pending event: the task's
remaining events lose their head (and no other field but `dead` changes). -/
lemma stepSys_handler_parts (s : SysState) (i : Nat) (c : Conn)
    (ev : Event) (es' : List Event) (hd : s.dead = false)
    (hget : s.tasks[i]? = some (c, ev :: es')) :
    (stepSys (Choice.handler i) s).tasks = s.tasks.set i (c, es') ∧
    (stepSys (Choice.handler i) s).pending = s.pending := by
  cases ev <;> simp [stepSys, hd, hget]

/-- The acceptor-loop invariant: the connections owned by the spawned tasks
are exactly the already-accepted prefix of the connection list, and the
pending accept outcomes are the remaining suffix. -/
def Inv (cs : List Conn) (s : SysState) : Prop :=
  ∃ cs1 cs2, cs = cs1 ++ cs2 ∧ List.map Prod.fst s.tasks = cs1 ∧
    s.pending = List.map AcceptOutcome.conn cs2

/-- The invariant is preserved by every scheduling step. -/
lemma stepSys_inv (cs : List Conn) (ch : Choice) (s : SysState)
    (h : Inv cs s) : Inv cs (stepSys ch s) := by
  obtain ⟨cs1, cs2, hcs, hts, hp⟩ := h
  by_cases hd : s.dead = true
  · rw [stepSys_dead ch s hd]
    exact ⟨cs1, cs2, hcs, hts, hp⟩
  · replace hd : s.dead = false := by simpa using hd
    cases ch with
    | acceptor =>
      cases cs2 with
      | nil =>
        have hp' : s.pending = [] := by simpa using hp
        have hs : stepSys Choice.acceptor s = s := by
          simp [stepSys, hd, hp']
        rw [hs]
        exact ⟨cs1, [], hcs, hts, hp⟩
      | cons c cs2' =>
        have hp' : s.pending =
            AcceptOutcome.conn c :: List.map AcceptOutcome.conn cs2' := by
          simpa using hp
        have hs : stepSys Choice.acceptor s =
            SysState.mk (List.map AcceptOutcome.conn cs2')
              (s.tasks ++ [(c, runHandler c)]) false := by
          simp [stepSys, hd, hp']
        rw [hs]
        exact ⟨cs1 ++ [c], cs2', by simp [hcs], by simp [hts], rfl⟩
    | handler i =>
      rcases hget : s.tasks[i]? with _ | ⟨c, es⟩
      · have hs : stepSys (Choice.handler i) s = s := by
          simp [stepSys, hd, hget]
        rw [hs]
        exact ⟨cs1, cs2, hcs, hts, hp⟩
      · cases es with
        | nil =>
          have hs : stepSys (Choice.handler i) s = s := by
            simp [stepSys, hd, hget]
          rw [hs]
          exact ⟨cs1, cs2, hcs, hts, hp⟩
        | cons ev es' =>
          obtain ⟨ht, hpend⟩ := stepSys_handler_parts s i c ev es' hd hget
          refine ⟨cs1, cs2, hcs, ?_, ?_⟩
          · rw [ht, map_fst_set s.tasks i c es' (ev :: es') hget]
            exact hts
          · rw [hpend]
            exact hp

/-- The invariant is preserved by every schedule. -/
lemma runSys_inv (cs : List Conn) (sched : List Choice) (s : SysState)
    (h : Inv cs s) : Inv cs (runSys sched s) := by
  induction sched generalizing s with
  | nil => exact h
  | cons ch rest ih => exact ih _ (stepSys_inv cs ch s h)

/-- C1: each of the three observed failure kinds terminates the entire
process. (a) If the bind fails, the process is dead from the start, no
handler is ever spawned, and no schedule changes the state. (b) If an accept
fails, the very next acceptor step kills the process — pending connections
and running handlers included — and no schedule makes further progress.
(c) If a spawned handler's read fails, its two steps (the read, then the
`log.Fatal` exit) kill the whole process, rather than closing only that
connection, and no schedule makes further progress. -/
theorem claim_C1_failures_terminate_process :
    (∀ e outcomes sched,
      (mainStart (some e) outcomes).dead = true ∧
      (mainStart (some e) outcomes).tasks = [] ∧
      runSys sched (mainStart (some e) outcomes) = mainStart (some e) outcomes) ∧
    (∀ e rest ts sched,
      (stepSys Choice.acceptor
        (SysState.mk (AcceptOutcome.failure e :: rest) ts false)).dead = true ∧
      runSys sched (stepSys Choice.acceptor
          (SysState.mk (AcceptOutcome.failure e :: rest) ts false)) =
        stepSys Choice.acceptor
          (SysState.mk (AcceptOutcome.failure e :: rest) ts false)) ∧
    (∀ d e w pending ts sched,
      (stepSys (Choice.handler 0) (stepSys (Choice.handler 0)
        (SysState.mk pending ((Conn.mk d (some e) w,
          runHandler (Conn.mk d (some e) w)) :: ts) false))).dead = true ∧
      runSys sched (stepSys (Choice.handler 0) (stepSys (Choice.handler 0)
          (SysState.mk pending ((Conn.mk d (some e) w,
            runHandler (Conn.mk d (some e) w)) :: ts) false))) =
        stepSys (Choice.handler 0) (stepSys (Choice.handler 0)
          (SysState.mk pending ((Conn.mk d (some e) w,
            runHandler (Conn.mk d (some e) w)) :: ts) false))) := by
  refine ⟨?_, ?_, ?_⟩
  · intro e outcomes sched
    exact ⟨rfl, rfl, runSys_dead sched _ rfl⟩
  · intro e rest ts sched
    exact ⟨rfl, runSys_dead sched _ rfl⟩
  · intro d e w pending ts sched
    have h1 : stepSys (Choice.handler 0)
        (SysState.mk pending ((Conn.mk d (some e) w,
          runHandler (Conn.mk d (some e) w)) :: ts) false) =
        SysState.mk pending ((Conn.mk d (some e) w,
          [Event.fatalExit ("error reading from connection: " ++ e)]) :: ts)
          false := by
      simp [stepSys, runHandler_readErr]
    have h2 : (stepSys (Choice.handler 0) (stepSys (Choice.handler 0)
        (SysState.mk pending ((Conn.mk d (some e) w,
          runHandler (Conn.mk d (some e) w)) :: ts) false))).dead = true := by
      rw [h1]
      simp [stepSys]
    exact ⟨h2, runSys_dead sched _ h2⟩

/-- C6: under any scheduling of acceptor and handler steps, the connections
owned by the spawned handler tasks are exactly an initial segment of the
accepted connections, in order — every connection returned by accept is given
to exactly one handler task, and no connection is ever given to two. -/
theorem claim_C6_one_task_per_connection (sched : List Choice)
    (cs : List Conn) :
    ∃ k, k ≤ cs.length ∧
      List.map Prod.fst (runSys sched
          (mainStart none (List.map AcceptOutcome.conn cs))).tasks =
        List.take k cs := by
  have h0 : Inv cs (mainStart none (List.map AcceptOutcome.conn cs)) :=
    ⟨[], cs, rfl, rfl, rfl⟩
  obtain ⟨cs1, cs2, hcs, hts, hp⟩ := runSys_inv cs sched _ h0
  subst hcs
  exact ⟨cs1.length, by simp, by rw [hts, List.take_left]⟩

/-- C7: after each successful accept the acceptor spawns the handler and
immediately loops back to accept the next connection: with no handler step
scheduled at all — whatever state the already-spawned handlers `ts` are stuck
in — a schedule of acceptor steps alone accepts and dispatches every pending
connection, so no client's handling can block other clients from
connecting. -/
theorem claim_C7_acceptor_never_blocked_by_handlers (cs : List Conn)
    (ts : List (Conn × List Event)) :
    runSys (List.replicate cs.length Choice.acceptor)
        (SysState.mk (List.map AcceptOutcome.conn cs) ts false) =
      SysState.mk [] (ts ++ List.map (fun c => (c, runHandler c)) cs) false := by
  induction cs generalizing ts with
  | nil => simp [runSys]
  | cons c cs ih =>
    have hstep : stepSys Choice.acceptor
        (SysState.mk (AcceptOutcome.conn c :: List.map AcceptOutcome.conn cs)
          ts false) =
        SysState.mk (List.map AcceptOutcome.conn cs)
          (ts ++ [(c, runHandler c)]) false := by
      simp [stepSys]
    simp only [List.length_cons, List.replicate_succ, List.map_cons, runSys,
      hstep, ih (ts ++ [(c, runHandler c)])]
    simp

end TcpServer
